import Mathlib

/- Verification model of the fury rust serialization core.

   The byte-level code under src/rust/fury-core/src/internal (string.rs and
   map.rs) is embedded directly.  The cursor/buffer primitives, the Serializer
   trait plumbing (serialize/deserialize with the reference/nullability
   header), the error type and the UTF-16 to UTF-8 transcoder are not part of
   the visible sources; they are modelled from the spec (sections 3, 4.1, 4.2,
   4.4, 6 and 7), constrained by their call sites in the visible code.
   Bytes are modelled as Nat values below 256; a Rust String is modelled by
   the list of its UTF-8 bytes. -/

/-- Typed error taxonomy of the core. Modelled from the spec: error.rs is not
in src/; the constructors follow the taxonomy of spec section 7, plus a
marker for a reference/nullability header that does not announce a value. -/
inductive Error where
  | bufferUnderrun
  | invalidUtf8
  | missingSurrogatePair
  | wrongSurrogatePair
  | varIntOverflow
  | typeMismatch
  | unknownReference
  | badRefFlag
  deriving DecidableEq, Repr

/-- Result of a fallible read: a typed success carrying the value and the
remaining bytes, a typed error as in a Rust Result, or a hard failure
(RRes.fatal) for conditions that the infallible cursor call sites in the
visible code cannot surface as a Result, such as running the cursor past the
end of the buffer. -/
inductive RRes (α : Type) where
  | ok : α → List Nat → RRes α
  | err : Error → RRes α
  | fatal : RRes α
  deriving DecidableEq, Repr

/-- Modelled from the spec, section 4.2 (the ByteCursor varint writer is not
in src/): continuation-bit encoding of an unsigned value, seven payload bits
per byte, high bit set when more bytes follow.  The fuel bounds the number of
emitted bytes; five bytes always suffice for the 32-bit values this writer
receives. -/
def writeVarFuel : Nat → Nat → List Nat
  | 0, _ => []
  | fuel + 1, v => if v < 128 then [v] else (v % 128 + 128) :: writeVarFuel fuel (v / 128)

/-- Writer var_int32: the i32 argument is reinterpreted as its unsigned
32-bit pattern and encoded with continuation bits (spec section 4.2). -/
def Writer.var_int32 (n : Int) : List Nat :=
  writeVarFuel 5 ((n % (2 : Int) ^ 32).toNat)

/-- Writer reserve grows capacity only; it never changes the written content
(spec section 4.1), so in the byte model it contributes no bytes. -/
def Writer.reserve (_n : Nat) : List Nat := []

/-- Modelled from the spec, section 4.2: continuation-bit varint reader
consuming at most fuel bytes (five for 32 bits, so that a malformed run of
continuation bits cannot loop unbounded).  Running past the end of the buffer
is a hard failure, returned as none: the call sites in src/ use the result as
a plain i32, so no typed error can be produced here. -/
def readVarLoop : Nat → Nat → Nat → List Nat → Option (Nat × List Nat)
  | 0, acc, _, bs => some (acc, bs)
  | _ + 1, _, _, [] => none
  | fuel + 1, acc, shift, b :: bs =>
    if b % 256 < 128 then some (acc + b % 128 * 2 ^ shift, bs)
    else readVarLoop fuel (acc + b % 128 * 2 ^ shift) (shift + 7) bs

/-- Interprets an unsigned 32-bit pattern as the signed i32 value with the
same bit pattern. -/
def toI32 (v : Nat) : Int :=
  if v % 2 ^ 32 < 2 ^ 31 then ((v % 2 ^ 32 : Nat) : Int)
  else ((v % 2 ^ 32 : Nat) : Int) - 2 ^ 32

/-- Reader var_int32: decodes the continuation-bit bytes and reinterprets the
accumulated 32-bit pattern as signed. -/
def Reader.var_int32 (bs : List Nat) : Option (Int × List Nat) :=
  (readVarLoop 5 0 0 bs).map fun p => (toI32 p.1, p.2)

/-- Decides whether a byte is a UTF-8 continuation byte (0x80 to 0xBF). -/
def isCont (b : Nat) : Bool := 128 ≤ b && b < 192

/-- Consumes one well-formed UTF-8 encoded scalar value from the front of a
byte list, returning the remainder, or none if the front is malformed.
Follows the strict UTF-8 shape (no overlong forms, no surrogates, at most
U+10FFFF), which is what the Rust String invariant guarantees. -/
def utf8Step : List Nat → Option (List Nat)
  | [] => none
  | b :: rest =>
    if b < 128 then some rest
    else if 194 ≤ b && b ≤ 223 then
      match rest with
      | c :: r => if isCont c then some r else none
      | [] => none
    else if b == 224 then
      match rest with
      | c :: d :: r => if (160 ≤ c && c < 192) && isCont d then some r else none
      | _ => none
    else if (225 ≤ b && b ≤ 236) || (238 ≤ b && b ≤ 239) then
      match rest with
      | c :: d :: r => if isCont c && isCont d then some r else none
      | _ => none
    else if b == 237 then
      match rest with
      | c :: d :: r => if (128 ≤ c && c < 160) && isCont d then some r else none
      | _ => none
    else if b == 240 then
      match rest with
      | c :: d :: e :: r => if (144 ≤ c && c < 192) && isCont d && isCont e then some r else none
      | _ => none
    else if 241 ≤ b && b ≤ 243 then
      match rest with
      | c :: d :: e :: r => if isCont c && isCont d && isCont e then some r else none
      | _ => none
    else if b == 244 then
      match rest with
      | c :: d :: e :: r => if (128 ≤ c && c < 144) && isCont d && isCont e then some r else none
      | _ => none
    else none

/-- Runs utf8Step until the list is exhausted; the fuel only needs to be at
least the length of the list, since every step consumes at least one byte. -/
def validUtf8Fuel : Nat → List Nat → Bool
  | _, [] => true
  | 0, _ :: _ => false
  | fuel + 1, l =>
    match utf8Step l with
    | some r => validUtf8Fuel fuel r
    | none => false

/-- Modelled from the spec, sections 4.1 and 6: whole-sequence strict UTF-8
validity, the property a Rust String holds by construction and that decoding
a string payload must check. -/
def validUtf8 (l : List Nat) : Bool := validUtf8Fuel l.length l

/-- Modelled from the spec, section 4.1 (the ByteCursor string(len) primitive
is not in src/): reads exactly len bytes and interprets them as UTF-8.  Its
call site in string.rs uses the result as a plain String, so a truncated
buffer or an invalid UTF-8 payload can only be a hard failure of the cursor,
never a typed error of the enclosing read. -/
def Reader.string (len : Nat) (bs : List Nat) : Option (List Nat × List Nat) :=
  if len ≤ bs.length && validUtf8 (bs.take len) then some (bs.take len, bs.drop len) else none

/-- String write from src/rust/fury-core/src/internal/string.rs: the UTF-8
byte length cast to i32 is written as a var-int, followed by the raw UTF-8
bytes. -/
def StringSer.write (s : List Nat) : List Nat :=
  Writer.var_int32 (toI32 s.length) ++ s

/-- String read from src/rust/fury-core/src/internal/string.rs: reads a
var-int length, casts it to usize (two's-complement reinterpretation into 64
bits), reads that many bytes as UTF-8, and wraps the result of the cursor
primitive in Ok unconditionally. -/
def StringSer.read (bs : List Nat) : RRes (List Nat) :=
  match Reader.var_int32 bs with
  | none => .fatal
  | some (len, rest) =>
    match Reader.string ((len % (2 : Int) ^ 64).toNat) rest with
    | none => .fatal
    | some (s, rest2) => .ok s rest2

/-- Uniform Serializer capability interface over the byte model: write
produces bytes appended to the stream, read consumes bytes from the front. -/
structure Ser (α : Type) where
  write : α → List Nat
  read : List Nat → RRes α

/-- Modelled from the spec, sections 3 and 6: the reference/nullability
header byte announcing that a non-null value follows.  The exact bit layout
of the header slot is left open by the spec; a single marker byte keeps
serialize and deserialize symmetric, which is all the visible code relies
on. -/
def NOT_NULL_VALUE_FLAG : Nat := 255

/-- Modelled from the spec (serializer.rs is not in src/): serialize emits
the reference/nullability header and then the value via write. -/
def Ser.serialize (s : Ser α) (a : α) : List Nat :=
  NOT_NULL_VALUE_FLAG :: s.write a

/-- Modelled from the spec: deserialize consumes the reference/nullability
header; a marker that does not announce a value is a typed error, and an
empty buffer at the marker is a hard failure as in the other cursor
primitives. -/
def Ser.deserialize (s : Ser α) : List Nat → RRes α
  | [] => .fatal
  | b :: rest => if b = NOT_NULL_VALUE_FLAG then s.read rest else .err .badRefFlag

/-- The Serializer instance for String as a record, for use as a map key or
value serializer. -/
def stringSer : Ser (List Nat) :=
  { write := StringSer.write, read := StringSer.read }

/-- Association-list model of HashMap insert: replaces the value at an
existing key in place, otherwise appends the new entry.  Only the resulting
key-to-value associations are observable for a HashMap; the list order
stands for the iteration order of the model. -/
def mapInsert [DecidableEq κ] : List (κ × ν) → κ → ν → List (κ × ν)
  | [], k, v => [(k, v)]
  | p :: rest, k, v => if p.1 = k then (k, v) :: rest else p :: mapInsert rest k v

/-- Association-list model of HashMap lookup. -/
def mapLookup [DecidableEq κ] : List (κ × ν) → κ → Option ν
  | [], _ => none
  | p :: rest, k => if p.1 = k then some p.2 else mapLookup rest k

/-- Folds mapInsert over a list of entries, as the read loop of map.rs does. -/
def insertAll [DecidableEq κ] (m : List (κ × ν)) (l : List (κ × ν)) : List (κ × ν) :=
  l.foldl (fun acc p => mapInsert acc p.1 p.2) m

/-- Bytes produced by the key-value loop of HashMap write in
src/rust/fury-core/src/internal/map.rs: each key serialized, then its value,
in iteration order. -/
def pairsBytes (sk : Ser κ) (sv : Ser ν) (l : List (κ × ν)) : List Nat :=
  l.foldr (fun p acc => sk.serialize p.1 ++ sv.serialize p.2 ++ acc) []

/-- HashMap write from src/rust/fury-core/src/internal/map.rs: the entry
count cast to i32 as a var-int, a semantically inert reserve call, then each
key and value serialized in iteration order.  The entry list of the model is
the iteration order of the map. -/
def MapSer.write (sk : Ser κ) (sv : Ser ν) (m : List (κ × ν)) : List Nat :=
  Writer.var_int32 (toI32 m.length) ++ Writer.reserve 0 ++ pairsBytes sk sv m

/-- The entry loop of HashMap read: deserializes a key, then a value, inserts
the pair, and repeats for the given number of iterations, propagating the
first typed error or hard failure. -/
def readPairs [DecidableEq κ] (sk : Ser κ) (sv : Ser ν) :
    Nat → List (κ × ν) → List Nat → RRes (List (κ × ν))
  | 0, acc, bs => .ok acc bs
  | n + 1, acc, bs =>
    match sk.deserialize bs with
    | .ok k bs1 =>
      match sv.deserialize bs1 with
      | .ok v bs2 => readPairs sk sv n (mapInsert acc k v) bs2
      | .err e => .err e
      | .fatal => .fatal
    | .err e => .err e
    | .fatal => .fatal

/-- HashMap read from src/rust/fury-core/src/internal/map.rs: reads the
var-int count into an i32, then runs the entry loop for 0..len iterations
over a fresh map; a negative count gives an empty Rust range, that is
Int.toNat len iterations. -/
def MapSer.read [DecidableEq κ] (sk : Ser κ) (sv : Ser ν) (bs : List Nat) :
    RRes (List (κ × ν)) :=
  match Reader.var_int32 bs with
  | none => .fatal
  | some (n, rest) => readPairs sk sv n.toNat [] rest

/-- Byte-swaps a 16-bit unit. -/
def swap16 (u : Nat) : Nat := u % 256 * 256 + u % 65536 / 256

/-- Modelled from the spec, section 4.4: the stored 16-bit unit is combined
into a scalar per the endianness flag before Unicode interpretation.  The
flag set to true matches the stored order of the unit (a little-endian host,
as in the tests of test_util.rs); false byte-swaps the unit first. -/
def getUnit (u : Nat) (isLittleEndian : Bool) : Nat :=
  if isLittleEndian then u % 65536 else swap16 u

/-- Encodes one Unicode scalar value as UTF-8 (spec section 4.4: one byte
below 0x80, two below 0x800, three below 0x10000, four above). -/
def encodeCodepoint (c : Nat) : List Nat :=
  if c < 128 then [c]
  else if c < 2048 then [192 + c / 64, 128 + c % 64]
  else if c < 65536 then [224 + c / 4096, 128 + c / 64 % 64, 128 + c % 64]
  else [240 + c / 262144, 128 + c / 4096 % 64, 128 + c / 64 % 64, 128 + c % 64]

/-- Modelled from the spec, section 4.4 (the transcoder implementation is not
in src/, only its tests): the scalar reference UTF-16 to UTF-8 transcoder.  A
unit outside the surrogate range encodes directly; a high surrogate must be
followed by a low surrogate, giving a four-byte supplementary encoding; a
high surrogate at the end of input or followed by a non-surrogate unit is a
missing-surrogate-pair error; a high surrogate followed by another high
surrogate, or a lone low surrogate, is a wrong-surrogate-pair error. -/
def utf16_to_utf8 : List Nat → Bool → Except Error (List Nat)
  | [], _ => .ok []
  | u :: rest, le =>
    let c := getUnit u le
    if c < 0xD800 || 0xE000 ≤ c then
      (utf16_to_utf8 rest le).map fun bs => encodeCodepoint c ++ bs
    else if c < 0xDC00 then
      match rest with
      | [] => .error .missingSurrogatePair
      | u2 :: rest2 =>
        let c2 := getUnit u2 le
        if 0xDC00 ≤ c2 && c2 < 0xE000 then
          (utf16_to_utf8 rest2 le).map fun bs =>
            encodeCodepoint (65536 + (c - 0xD800) * 1024 + (c2 - 0xDC00)) ++ bs
        else if 0xD800 ≤ c2 && c2 < 0xDC00 then .error .wrongSurrogatePair
        else .error .missingSurrogatePair
    else .error .wrongSurrogatePair

/-- Modelled from the spec, section 4.4: SIMD-shaped transcoder processing a
fixed batch of w units at a time.  A batch of uniformly one-byte (ASCII)
units takes the vectorized fast path; any other situation (surrogates, mixed
widths, a trailing remainder shorter than one batch) falls back to one scalar
step before resuming.  w = 8 models the 8 lanes of the 128-bit SSE and ARM
NEON paths, w = 16 the 16 lanes of the 256-bit AVX path. -/
def utf16_to_utf8_simd (w : Nat) (units : List Nat) (le : Bool) : Except Error (List Nat) :=
  if h : 0 < w ∧ w ≤ units.length ∧ (units.take w).all (fun u => getUnit u le < 128) then
    (utf16_to_utf8_simd w (units.drop w) le).map fun bs =>
      (units.take w).map (fun u => getUnit u le) ++ bs
  else
    match units with
    | [] => .ok []
    | u :: rest =>
      let c := getUnit u le
      if c < 0xD800 || 0xE000 ≤ c then
        (utf16_to_utf8_simd w rest le).map fun bs => encodeCodepoint c ++ bs
      else if c < 0xDC00 then
        match rest with
        | [] => .error .missingSurrogatePair
        | u2 :: rest2 =>
          let c2 := getUnit u2 le
          if 0xDC00 ≤ c2 && c2 < 0xE000 then
            (utf16_to_utf8_simd w rest2 le).map fun bs =>
              encodeCodepoint (65536 + (c - 0xD800) * 1024 + (c2 - 0xDC00)) ++ bs
          else if 0xD800 ≤ c2 && c2 < 0xDC00 then .error .wrongSurrogatePair
          else .error .missingSurrogatePair
      else .error .wrongSurrogatePair
termination_by units.length
decreasing_by
  all_goals simp_all [List.length_drop]
  all_goals omega

/-- Reading back a continuation-bit encoding recovers the encoded value and
leaves the following bytes untouched, for any accumulator and shift. -/
theorem readVarLoop_writeVarFuel (fuel : Nat) :
    ∀ (v acc shift : Nat) (rest : List Nat), v < 2 ^ (7 * (fuel + 1)) →
      readVarLoop (fuel + 1) acc shift (writeVarFuel (fuel + 1) v ++ rest) =
        some (acc + v * 2 ^ shift, rest) := by
  induction fuel with
  | zero =>
    intro v acc shift rest hv
    have hv' : v < 128 := by omega
    simp [writeVarFuel, readVarLoop, hv', Nat.mod_eq_of_lt hv',
      Nat.mod_eq_of_lt (show v < 256 by omega)]
  | succ fuel ih =>
    intro v acc shift rest hv
    by_cases hv' : v < 128
    · simp [writeVarFuel, readVarLoop, hv', Nat.mod_eq_of_lt hv',
        Nat.mod_eq_of_lt (show v < 256 by omega)]
    · have h1 : ¬ (v % 128 + 128) % 256 < 128 := by omega
      have h2 : (v % 128 + 128) % 128 = v % 128 := by omega
      have hpow : 2 ^ (7 * (fuel + 1 + 1)) = 2 ^ (7 * (fuel + 1)) * 128 := by ring
      have h3 : v / 128 < 2 ^ (7 * (fuel + 1)) := by
        rw [Nat.div_lt_iff_lt_mul (show 0 < 128 by omega)]
        omega
      rw [writeVarFuel]
      simp only [hv', if_false, List.cons_append]
      rw [readVarLoop]
      simp only [h1, if_false, h2]
      rw [ih (v / 128) (acc + v % 128 * 2 ^ shift) (shift + 7) rest h3]
      congr 1
      congr 1
      have : 2 ^ (shift + 7) = 2 ^ shift * 128 := by ring
      rw [this]
      have hsplit : v = v % 128 + 128 * (v / 128) := (Nat.mod_add_div v 128).symm
      calc acc + v % 128 * 2 ^ shift + v / 128 * (2 ^ shift * 128)
          = acc + (v % 128 + 128 * (v / 128)) * 2 ^ shift := by ring
        _ = acc + v * 2 ^ shift := by rw [← hsplit]

/-- Signed reinterpretation undoes the unsigned reinterpretation on the i32
range. -/
theorem toI32_emod (n : Int) (h1 : -2 ^ 31 ≤ n) (h2 : n < 2 ^ 31) :
    toI32 ((n % (2 : Int) ^ 32).toNat) = n := by
  unfold toI32
  split <;> omega

/-- The unsigned 32-bit pattern of an i32 fits in five continuation-bit
bytes. -/
theorem emod_toNat_lt (n : Int) : (n % (2 : Int) ^ 32).toNat < 2 ^ (7 * 5) := by
  have : (0 : Int) ≤ n % (2 : Int) ^ 32 := Int.emod_nonneg n (by norm_num)
  have : n % (2 : Int) ^ 32 < 2 ^ 32 := Int.emod_lt_of_pos n (by norm_num)
  omega

/-- Reader var_int32 recovers what Writer var_int32 wrote, for any value in
the i32 range, leaving the following bytes untouched. -/
theorem var_int32_roundtrip (n : Int) (h1 : -2 ^ 31 ≤ n) (h2 : n < 2 ^ 31)
    (rest : List Nat) :
    Reader.var_int32 (Writer.var_int32 n ++ rest) = some (n, rest) := by
  unfold Reader.var_int32 Writer.var_int32
  have h5 : (5 : Nat) = 4 + 1 := rfl
  rw [h5, readVarLoop_writeVarFuel 4 ((n % (2 : Int) ^ 32).toNat) 0 0 rest (emod_toNat_lt n)]
  have ht := toI32_emod n h1 h2
  norm_num at ht
  simp [ht]

/-- For a natural number in the i32 range, the i32 cast is the identity. -/
theorem toI32_ofNat (m : Nat) (h : m < 2 ^ 31) : toI32 m = (m : Int) := by
  unfold toI32
  split <;> omega

/-- A nonneg i32 value cast to usize is its natural value. -/
theorem usize_cast_of_nonneg (n : Int) (h1 : 0 ≤ n) (h2 : n < 2 ^ 31) :
    ((n % (2 : Int) ^ 64).toNat) = n.toNat := by
  omega

/-- String round-trip: reading back the bytes written for a valid UTF-8
string of byte length below 2^31 returns the same string and leaves the
following bytes untouched. -/
theorem string_read_write (s : List Nat) (hv : validUtf8 s = true)
    (hlen : s.length < 2 ^ 31) (rest : List Nat) :
    StringSer.read (StringSer.write s ++ rest) = .ok s rest := by
  unfold StringSer.write StringSer.read
  rw [toI32_ofNat s.length hlen, List.append_assoc,
    var_int32_roundtrip (s.length : Int) (by omega) (by omega) (s ++ rest)]
  simp only
  rw [usize_cast_of_nonneg (s.length : Int) (by omega) (by omega)]
  simp only [Int.toNat_ofNat]
  unfold Reader.string
  rw [List.take_left, List.drop_left]
  simp [hv]

/-- Deserialize undoes serialize up to the inner read: the header marker
matches, so deserialize hands the remaining bytes to read. -/
theorem Ser.deserialize_serialize (s : Ser α) (a : α) (r : List Nat) :
    s.deserialize (s.serialize a ++ r) = s.read (s.write a ++ r) := by
  simp [Ser.serialize, Ser.deserialize]

/-- Running the entry loop over the bytes of a pair list decodes exactly
those pairs and folds them into the accumulator, provided every entry of the
list round-trips through its serializer. -/
theorem readPairs_pairsBytes [DecidableEq κ] (sk : Ser κ) (sv : Ser ν)
    (ps : List (κ × ν))
    (hk : ∀ p ∈ ps, ∀ r, sk.read (sk.write p.1 ++ r) = .ok p.1 r)
    (hv : ∀ p ∈ ps, ∀ r, sv.read (sv.write p.2 ++ r) = .ok p.2 r) :
    ∀ (m : Nat) (acc : List (κ × ν)) (rest : List Nat),
      readPairs sk sv (ps.length + m) acc (pairsBytes sk sv ps ++ rest) =
        readPairs sk sv m (insertAll acc ps) rest := by
  induction ps with
  | nil => intro m acc rest; simp [pairsBytes, insertAll]
  | cons p ps ih =>
    intro m acc rest
    have hstream : pairsBytes sk sv (p :: ps) ++ rest =
        sk.serialize p.1 ++ (sv.serialize p.2 ++ (pairsBytes sk sv ps ++ rest)) := by
      simp [pairsBytes]
    rw [hstream, List.length_cons]
    have hlen : ps.length + 1 + m = (ps.length + m) + 1 := by omega
    rw [hlen, readPairs]
    simp only [Ser.deserialize_serialize, hk p (by simp), hv p (by simp)]
    rw [ih (fun q hq => hk q (by simp [hq])) (fun q hq => hv q (by simp [hq]))]
    simp [insertAll]

/-- Inserting a key not present in the map appends the entry. -/
theorem mapInsert_not_mem [DecidableEq κ] (m : List (κ × ν)) (k : κ) (v : ν)
    (h : k ∉ m.map Prod.fst) : mapInsert m k v = m ++ [(k, v)] := by
  induction m with
  | nil => rfl
  | cons p rest ih =>
    simp only [List.map_cons, List.mem_cons] at h
    push_neg at h
    rw [mapInsert]
    rw [if_neg (fun hpk => h.1 hpk.symm)]
    rw [ih h.2]
    rfl

/-- Folding inserts of entries with pairwise distinct keys, none of which is
already present, appends the entries in order. -/
theorem insertAll_nodup [DecidableEq κ] (l : List (κ × ν)) :
    ∀ (m : List (κ × ν)), (l.map Prod.fst).Nodup →
      (∀ k ∈ l.map Prod.fst, k ∉ m.map Prod.fst) → insertAll m l = m ++ l := by
  induction l with
  | nil => intro m _ _; simp [insertAll]
  | cons p l ih =>
    intro m hnd hdis
    simp only [List.map_cons, List.nodup_cons] at hnd
    have hstep : insertAll m (p :: l) = insertAll (mapInsert m p.1 p.2) l := by
      simp [insertAll]
    rw [hstep, mapInsert_not_mem m p.1 p.2 (hdis p.1 (by simp))]
    rw [ih (m ++ [(p.1, p.2)]) hnd.2 ?_]
    · simp
    · intro k hk
      simp only [List.map_append, List.mem_append]
      rintro (hc | hc)
      · exact hdis k (by simp [hk]) hc
      · simp at hc
        exact hnd.1 (hc ▸ hk)

/-- Map round-trip helper: reading back the bytes written for an entry list
with pairwise distinct keys recovers exactly that entry list, provided every
entry round-trips through its serializer and the entry count fits an i32. -/
theorem map_read_write [DecidableEq κ] (sk : Ser κ) (sv : Ser ν)
    (l : List (κ × ν)) (hnd : (l.map Prod.fst).Nodup) (hlen : l.length < 2 ^ 31)
    (hk : ∀ p ∈ l, ∀ r, sk.read (sk.write p.1 ++ r) = .ok p.1 r)
    (hv : ∀ p ∈ l, ∀ r, sv.read (sv.write p.2 ++ r) = .ok p.2 r)
    (rest : List Nat) :
    MapSer.read sk sv (MapSer.write sk sv l ++ rest) = .ok l rest := by
  unfold MapSer.write MapSer.read
  rw [toI32_ofNat l.length hlen]
  simp only [Writer.reserve, List.append_nil, List.append_assoc]
  rw [var_int32_roundtrip (l.length : Int) (by omega) (by omega)
    (pairsBytes sk sv l ++ rest)]
  simp only [Int.toNat_ofNat]
  have hm := readPairs_pairsBytes sk sv l hk hv 0 [] rest
  rw [Nat.add_zero] at hm
  rw [hm, insertAll_nodup l [] hnd (by simp)]
  simp [readPairs]

/-- Lookup after a single insert: the inserted key maps to the new value,
every other key is unchanged. -/
theorem mapLookup_mapInsert [DecidableEq κ] (m : List (κ × ν)) (k k' : κ) (v : ν) :
    mapLookup (mapInsert m k v) k' = if k = k' then some v else mapLookup m k' := by
  induction m with
  | nil => simp [mapInsert, mapLookup]
  | cons p rest ih =>
    by_cases hpk : p.1 = k
    · by_cases hkk : k = k'
      · simp [mapInsert, mapLookup, hpk, hkk]
      · have hpk' : ¬ p.1 = k' := fun h => hkk (by rw [← hpk, h])
        simp [mapInsert, mapLookup, hpk, hkk, hpk']
    · by_cases hpk' : p.1 = k'
      · have hkk : ¬ k = k' := fun h => hpk (by rw [h, hpk'])
        have hkk2 : ¬ k' = k := fun h => hkk h.symm
        simp [mapInsert, mapLookup, hpk, hpk', hkk, hkk2]
      · simp [mapInsert, mapLookup, hpk, hpk', ih]

/-- Lookup after folding inserts of a possibly duplicated entry list: the
value of the last occurrence of the key wins, and a key with no occurrence
falls back to the base map. -/
theorem mapLookup_insertAll [DecidableEq κ] (ps : List (κ × ν)) :
    ∀ (m : List (κ × ν)) (k : κ),
      mapLookup (insertAll m ps) k =
        ((ps.reverse.find? fun p => decide (p.1 = k)).map Prod.snd).or (mapLookup m k) := by
  induction ps with
  | nil => intro m k; simp [insertAll]
  | cons p ps ih =>
    intro m k
    have hstep : insertAll m (p :: ps) = insertAll (mapInsert m p.1 p.2) ps := by
      simp [insertAll]
    rw [hstep, ih, List.reverse_cons, List.find?_append]
    cases hfind : ps.reverse.find? fun q => decide (q.1 = k) with
    | some q => simp [Option.or]
    | none =>
      simp only [Option.map_none, Option.none_or, List.find?_singleton]
      rw [mapLookup_mapInsert]
      by_cases hpk : p.1 = k
      · simp [hpk]
      · simp [hpk]

/-- Bound on the byte-swapped unit. -/
theorem swap16_lt (u : Nat) : swap16 u < 65536 := by
  unfold swap16
  omega

/-- The two bytes of a 16-bit unit swapped twice give back the unit, reduced
to 16 bits. -/
theorem swap16_swap16 (u : Nat) : swap16 (swap16 u) = u % 65536 := by
  unfold swap16
  have h1 : (u % 256 * 256 + u % 65536 / 256) % 256 = u % 65536 / 256 := by omega
  have h2 : (u % 256 * 256 + u % 65536 / 256) % 65536 = u % 256 * 256 + u % 65536 / 256 := by
    omega
  rw [h1, h2]
  have h3 : (u % 256 * 256 + u % 65536 / 256) / 256 = u % 256 := by omega
  rw [h3]
  omega

/-- Byte-swapping the unit and flipping the endianness flag leave the decoded
scalar unchanged. -/
theorem getUnit_swap16 (u : Nat) (le : Bool) : getUnit (swap16 u) (!le) = getUnit u le := by
  cases le
  · simp [getUnit, Nat.mod_eq_of_lt (swap16_lt u)]
  · simp [getUnit, swap16_swap16]

/-- Scalar transcoder step: a unit outside the surrogate range encodes
directly and processing continues. -/
theorem utf16_step_bmp (u : Nat) (rest : List Nat) (le : Bool)
    (h : getUnit u le < 55296 ∨ 57344 ≤ getUnit u le) :
    utf16_to_utf8 (u :: rest) le =
      (utf16_to_utf8 rest le).map fun bs => encodeCodepoint (getUnit u le) ++ bs := by
  rw [utf16_to_utf8.eq_def]
  rcases h with h | h <;> simp [h]

/-- Scalar transcoder step: a high surrogate at the end of the input is a
missing-surrogate-pair error. -/
theorem utf16_step_hi_nil (u : Nat) (le : Bool)
    (h1 : 55296 ≤ getUnit u le) (h2 : getUnit u le < 56320) :
    utf16_to_utf8 [u] le = .error .missingSurrogatePair := by
  rw [utf16_to_utf8.eq_def]
  simp [h2, Nat.not_lt.mpr h1, Nat.not_le.mpr (show getUnit u le < 57344 by omega)]

/-- Scalar transcoder step: a valid surrogate pair encodes a supplementary
scalar and processing continues after both units. -/
theorem utf16_step_pair (u u2 : Nat) (rest : List Nat) (le : Bool)
    (h1 : 55296 ≤ getUnit u le) (h2 : getUnit u le < 56320)
    (h3 : 56320 ≤ getUnit u2 le) (h4 : getUnit u2 le < 57344) :
    utf16_to_utf8 (u :: u2 :: rest) le =
      (utf16_to_utf8 rest le).map fun bs =>
        encodeCodepoint (65536 + (getUnit u le - 55296) * 1024 + (getUnit u2 le - 56320)) ++ bs := by
  rw [utf16_to_utf8.eq_def]
  simp [h2, h3, h4, Nat.not_lt.mpr h1,
    Nat.not_le.mpr (show getUnit u le < 57344 by omega)]

/-- Scalar transcoder step: a high surrogate followed by another high
surrogate is a wrong-surrogate-pair error. -/
theorem utf16_step_hi_hi (u u2 : Nat) (rest : List Nat) (le : Bool)
    (h1 : 55296 ≤ getUnit u le) (h2 : getUnit u le < 56320)
    (h3 : 55296 ≤ getUnit u2 le) (h4 : getUnit u2 le < 56320) :
    utf16_to_utf8 (u :: u2 :: rest) le = .error .wrongSurrogatePair := by
  rw [utf16_to_utf8.eq_def]
  simp [h2, h3, h4, Nat.not_lt.mpr h1,
    Nat.not_le.mpr (show getUnit u le < 57344 by omega),
    Nat.not_le.mpr (show getUnit u2 le < 56320 by omega)]

/-- Scalar transcoder step: a high surrogate followed by a non-surrogate
unit is a missing-surrogate-pair error. -/
theorem utf16_step_hi_other (u u2 : Nat) (rest : List Nat) (le : Bool)
    (h1 : 55296 ≤ getUnit u le) (h2 : getUnit u le < 56320)
    (h3 : getUnit u2 le < 55296 ∨ 57344 ≤ getUnit u2 le) :
    utf16_to_utf8 (u :: u2 :: rest) le = .error .missingSurrogatePair := by
  rw [utf16_to_utf8.eq_def]
  rcases h3 with h3 | h3
  · simp [h2, Nat.not_lt.mpr h1,
      Nat.not_le.mpr (show getUnit u le < 57344 by omega),
      Nat.not_le.mpr (show getUnit u2 le < 56320 by omega),
      Nat.not_le.mpr (show getUnit u2 le < 55296 from h3),
      Nat.not_le.mpr (show getUnit u2 le < 57344 by omega)]
  · simp [h2, Nat.not_lt.mpr h1,
      Nat.not_le.mpr (show getUnit u le < 57344 by omega),
      Nat.not_lt.mpr (show 56320 ≤ getUnit u2 le by omega), h3,
      Nat.not_lt.mpr (show 55296 ≤ getUnit u2 le by omega)]

/-- Scalar transcoder step: a lone low surrogate is a wrong-surrogate-pair
error. -/
theorem utf16_step_lo (u : Nat) (rest : List Nat) (le : Bool)
    (h1 : 56320 ≤ getUnit u le) (h2 : getUnit u le < 57344) :
    utf16_to_utf8 (u :: rest) le = .error .wrongSurrogatePair := by
  rw [utf16_to_utf8.eq_def]
  simp [Nat.not_lt.mpr (show 55296 ≤ getUnit u le by omega),
    Nat.not_le.mpr h2, Nat.not_lt.mpr h1]

/-- Byte-swapping every unit and flipping the endianness flag leave the
whole transcoding result unchanged, output and errors alike. -/
theorem utf16_to_utf8_swap_units : ∀ (n : Nat) (units : List Nat), units.length ≤ n →
    ∀ (le : Bool), utf16_to_utf8 (units.map swap16) (!le) = utf16_to_utf8 units le := by
  intro n
  induction n with
  | zero =>
    intro units hlen le
    cases units with
    | nil => simp [utf16_to_utf8]
    | cons u rest => simp at hlen
  | succ n ih =>
    intro units hlen le
    cases units with
    | nil => simp [utf16_to_utf8]
    | cons u rest =>
      simp only [List.length_cons, Nat.add_le_add_iff_right] at hlen
      have hg : getUnit (swap16 u) (!le) = getUnit u le := getUnit_swap16 u le
      rw [List.map_cons]
      rcases Nat.lt_or_ge (getUnit u le) 55296 with hb1 | hb1
      · rw [utf16_step_bmp (swap16 u) (rest.map swap16) (!le) (by rw [hg]; omega),
          utf16_step_bmp u rest le (Or.inl hb1), hg,
          ih rest hlen le]
      · rcases Nat.lt_or_ge (getUnit u le) 56320 with hb2 | hb2
        · cases rest with
          | nil =>
            rw [List.map_nil,
              utf16_step_hi_nil (swap16 u) (!le) (by rw [hg]; omega) (by rw [hg]; omega),
              utf16_step_hi_nil u le hb1 hb2]
          | cons u2 rest2 =>
            simp only [List.length_cons] at hlen
            have hlen2 : rest2.length ≤ n := by omega
            have hg2 : getUnit (swap16 u2) (!le) = getUnit u2 le := getUnit_swap16 u2 le
            rw [List.map_cons]
            rcases Nat.lt_or_ge (getUnit u2 le) 55296 with hr1 | hr1
            · rw [utf16_step_hi_other (swap16 u) (swap16 u2) (rest2.map swap16) (!le)
                  (by rw [hg]; omega) (by rw [hg]; omega) (by rw [hg2]; omega),
                utf16_step_hi_other u u2 rest2 le hb1 hb2 (Or.inl hr1)]
            · rcases Nat.lt_or_ge (getUnit u2 le) 56320 with hr2 | hr2
              · rw [utf16_step_hi_hi (swap16 u) (swap16 u2) (rest2.map swap16) (!le)
                    (by rw [hg]; omega) (by rw [hg]; omega)
                    (by rw [hg2]; omega) (by rw [hg2]; omega),
                  utf16_step_hi_hi u u2 rest2 le hb1 hb2 hr1 hr2]
              · rcases Nat.lt_or_ge (getUnit u2 le) 57344 with hr3 | hr3
                · rw [utf16_step_pair (swap16 u) (swap16 u2) (rest2.map swap16) (!le)
                      (by rw [hg]; omega) (by rw [hg]; omega)
                      (by rw [hg2]; omega) (by rw [hg2]; omega),
                    utf16_step_pair u u2 rest2 le hb1 hb2 hr2 hr3, hg, hg2,
                    ih rest2 hlen2 le]
                · rw [utf16_step_hi_other (swap16 u) (swap16 u2) (rest2.map swap16) (!le)
                      (by rw [hg]; omega) (by rw [hg]; omega) (by rw [hg2]; omega),
                    utf16_step_hi_other u u2 rest2 le hb1 hb2 (Or.inr hr3)]
        · rcases Nat.lt_or_ge (getUnit u le) 57344 with hb3 | hb3
          · rw [utf16_step_lo (swap16 u) (rest.map swap16) (!le)
                (by rw [hg]; omega) (by rw [hg]; omega),
              utf16_step_lo u rest le hb2 hb3]
          · rw [utf16_step_bmp (swap16 u) (rest.map swap16) (!le) (by rw [hg]; omega),
              utf16_step_bmp u rest le (Or.inr hb3), hg,
              ih rest hlen le]

/-- A run of one-byte (ASCII) units transcodes to its low bytes, and
processing continues after the run. -/
theorem utf16_to_utf8_ascii_chunk (l : List Nat) (rest : List Nat) (le : Bool)
    (h : ∀ u ∈ l, getUnit u le < 128) :
    utf16_to_utf8 (l ++ rest) le =
      (utf16_to_utf8 rest le).map fun bs => l.map (fun u => getUnit u le) ++ bs := by
  induction l with
  | nil =>
    cases hres : utf16_to_utf8 rest le <;> simp [hres, Except.map]
  | cons u l ih =>
    have hu : getUnit u le < 128 := h u (by simp)
    rw [List.cons_append, utf16_step_bmp u (l ++ rest) le (Or.inl (by omega))]
    rw [ih (fun v hv => h v (by simp [hv]))]
    have he : encodeCodepoint (getUnit u le) = [getUnit u le] := by
      unfold encodeCodepoint
      rw [if_pos hu]
    cases hres : utf16_to_utf8 rest le <;> simp [hres, Except.map, he]

/-- Batched transcoder on an empty input. -/
theorem simd_nil (w : Nat) (le : Bool) : utf16_to_utf8_simd w [] le = .ok [] := by
  have hno : ¬(0 < w ∧ w ≤ ([] : List Nat).length ∧
      (([] : List Nat).take w).all fun v => getUnit v le < 128) := by
    rintro ⟨hw, hl, _⟩
    simp at hl
    omega
  rw [utf16_to_utf8_simd, dif_neg hno]

/-- Batched transcoder fast path: a full batch of ASCII units is emitted as
its low bytes. -/
theorem simd_fast (w : Nat) (units : List Nat) (le : Bool)
    (h : 0 < w ∧ w ≤ units.length ∧ (units.take w).all fun u => getUnit u le < 128) :
    utf16_to_utf8_simd w units le =
      (utf16_to_utf8_simd w (units.drop w) le).map fun bs =>
        (units.take w).map (fun u => getUnit u le) ++ bs := by
  rw [utf16_to_utf8_simd, dif_pos h]

/-- Batched transcoder fallback step on a non-surrogate unit. -/
theorem simd_step_bmp (w : Nat) (u : Nat) (rest : List Nat) (le : Bool)
    (hno : ¬(0 < w ∧ w ≤ (u :: rest).length ∧
      ((u :: rest).take w).all fun v => getUnit v le < 128))
    (h : getUnit u le < 55296 ∨ 57344 ≤ getUnit u le) :
    utf16_to_utf8_simd w (u :: rest) le =
      (utf16_to_utf8_simd w rest le).map fun bs => encodeCodepoint (getUnit u le) ++ bs := by
  rw [utf16_to_utf8_simd, dif_neg hno]
  rcases h with h | h <;> simp [h]

/-- Batched transcoder fallback step on a trailing high surrogate. -/
theorem simd_step_hi_nil (w : Nat) (u : Nat) (le : Bool)
    (hno : ¬(0 < w ∧ w ≤ ([u] : List Nat).length ∧
      (([u] : List Nat).take w).all fun v => getUnit v le < 128))
    (h1 : 55296 ≤ getUnit u le) (h2 : getUnit u le < 56320) :
    utf16_to_utf8_simd w [u] le = .error .missingSurrogatePair := by
  rw [utf16_to_utf8_simd, dif_neg hno]
  simp [h2, Nat.not_lt.mpr h1, Nat.not_le.mpr (show getUnit u le < 57344 by omega)]

/-- Batched transcoder fallback step on a valid surrogate pair. -/
theorem simd_step_pair (w : Nat) (u u2 : Nat) (rest : List Nat) (le : Bool)
    (hno : ¬(0 < w ∧ w ≤ (u :: u2 :: rest).length ∧
      ((u :: u2 :: rest).take w).all fun v => getUnit v le < 128))
    (h1 : 55296 ≤ getUnit u le) (h2 : getUnit u le < 56320)
    (h3 : 56320 ≤ getUnit u2 le) (h4 : getUnit u2 le < 57344) :
    utf16_to_utf8_simd w (u :: u2 :: rest) le =
      (utf16_to_utf8_simd w rest le).map fun bs =>
        encodeCodepoint (65536 + (getUnit u le - 55296) * 1024 + (getUnit u2 le - 56320)) ++ bs := by
  rw [utf16_to_utf8_simd, dif_neg hno]
  simp [h2, h3, h4, Nat.not_lt.mpr h1,
    Nat.not_le.mpr (show getUnit u le < 57344 by omega)]

/-- Batched transcoder fallback step on two consecutive high surrogates. -/
theorem simd_step_hi_hi (w : Nat) (u u2 : Nat) (rest : List Nat) (le : Bool)
    (hno : ¬(0 < w ∧ w ≤ (u :: u2 :: rest).length ∧
      ((u :: u2 :: rest).take w).all fun v => getUnit v le < 128))
    (h1 : 55296 ≤ getUnit u le) (h2 : getUnit u le < 56320)
    (h3 : 55296 ≤ getUnit u2 le) (h4 : getUnit u2 le < 56320) :
    utf16_to_utf8_simd w (u :: u2 :: rest) le = .error .wrongSurrogatePair := by
  rw [utf16_to_utf8_simd, dif_neg hno]
  simp [h2, h3, h4, Nat.not_lt.mpr h1,
    Nat.not_le.mpr (show getUnit u le < 57344 by omega),
    Nat.not_le.mpr (show getUnit u2 le < 56320 by omega)]

/-- Batched transcoder fallback step on a high surrogate followed by a
non-surrogate unit. -/
theorem simd_step_hi_other (w : Nat) (u u2 : Nat) (rest : List Nat) (le : Bool)
    (hno : ¬(0 < w ∧ w ≤ (u :: u2 :: rest).length ∧
      ((u :: u2 :: rest).take w).all fun v => getUnit v le < 128))
    (h1 : 55296 ≤ getUnit u le) (h2 : getUnit u le < 56320)
    (h3 : getUnit u2 le < 55296 ∨ 57344 ≤ getUnit u2 le) :
    utf16_to_utf8_simd w (u :: u2 :: rest) le = .error .missingSurrogatePair := by
  rw [utf16_to_utf8_simd, dif_neg hno]
  rcases h3 with h3 | h3
  · simp [h2, Nat.not_lt.mpr h1,
      Nat.not_le.mpr (show getUnit u le < 57344 by omega),
      Nat.not_le.mpr (show getUnit u2 le < 56320 by omega),
      Nat.not_le.mpr (show getUnit u2 le < 55296 from h3),
      Nat.not_le.mpr (show getUnit u2 le < 57344 by omega)]
  · simp [h2, Nat.not_lt.mpr h1,
      Nat.not_le.mpr (show getUnit u le < 57344 by omega),
      Nat.not_lt.mpr (show 56320 ≤ getUnit u2 le by omega), h3,
      Nat.not_lt.mpr (show 55296 ≤ getUnit u2 le by omega)]

/-- Batched transcoder fallback step on a lone low surrogate. -/
theorem simd_step_lo (w : Nat) (u : Nat) (rest : List Nat) (le : Bool)
    (hno : ¬(0 < w ∧ w ≤ (u :: rest).length ∧
      ((u :: rest).take w).all fun v => getUnit v le < 128))
    (h1 : 56320 ≤ getUnit u le) (h2 : getUnit u le < 57344) :
    utf16_to_utf8_simd w (u :: rest) le = .error .wrongSurrogatePair := by
  rw [utf16_to_utf8_simd, dif_neg hno]
  simp [Nat.not_lt.mpr (show 55296 ≤ getUnit u le by omega),
    Nat.not_le.mpr h2, Nat.not_lt.mpr h1]

/-- The batched transcoder computes exactly the scalar reference result, for
every batch width, input and endianness: output bytes and error
classification alike. -/
theorem utf16_to_utf8_simd_eq : ∀ (n w : Nat) (units : List Nat), units.length ≤ n →
    ∀ (le : Bool), utf16_to_utf8_simd w units le = utf16_to_utf8 units le := by
  intro n
  induction n with
  | zero =>
    intro w units hlen le
    cases units with
    | nil => rw [simd_nil]; rfl
    | cons u rest => simp at hlen
  | succ n ih =>
    intro w units hlen le
    by_cases hfast : 0 < w ∧ w ≤ units.length ∧ (units.take w).all fun u => getUnit u le < 128
    · rw [simd_fast w units le hfast]
      have hall : ∀ v ∈ units.take w, getUnit v le < 128 := by
        intro v hv
        have := List.all_eq_true.mp hfast.2.2 v hv
        simpa using this
      have hdroplen : (units.drop w).length ≤ n := by
        simp only [List.length_drop]
        omega
      rw [ih w (units.drop w) hdroplen le]
      conv_rhs => rw [← List.take_append_drop w units]
      rw [utf16_to_utf8_ascii_chunk (units.take w) (units.drop w) le hall]
    · cases units with
      | nil => rw [simd_nil]; rfl
      | cons u rest =>
        simp only [List.length_cons, Nat.add_le_add_iff_right] at hlen
        rcases Nat.lt_or_ge (getUnit u le) 55296 with hb1 | hb1
        · rw [simd_step_bmp w u rest le hfast (Or.inl hb1),
            utf16_step_bmp u rest le (Or.inl hb1), ih w rest hlen le]
        · rcases Nat.lt_or_ge (getUnit u le) 56320 with hb2 | hb2
          · cases rest with
            | nil =>
              rw [simd_step_hi_nil w u le hfast hb1 hb2, utf16_step_hi_nil u le hb1 hb2]
            | cons u2 rest2 =>
              simp only [List.length_cons] at hlen
              have hlen2 : rest2.length ≤ n := by omega
              rcases Nat.lt_or_ge (getUnit u2 le) 55296 with hr1 | hr1
              · rw [simd_step_hi_other w u u2 rest2 le hfast hb1 hb2 (Or.inl hr1),
                  utf16_step_hi_other u u2 rest2 le hb1 hb2 (Or.inl hr1)]
              · rcases Nat.lt_or_ge (getUnit u2 le) 56320 with hr2 | hr2
                · rw [simd_step_hi_hi w u u2 rest2 le hfast hb1 hb2 hr1 hr2,
                    utf16_step_hi_hi u u2 rest2 le hb1 hb2 hr1 hr2]
                · rcases Nat.lt_or_ge (getUnit u2 le) 57344 with hr3 | hr3
                  · rw [simd_step_pair w u u2 rest2 le hfast hb1 hb2 hr2 hr3,
                      utf16_step_pair u u2 rest2 le hb1 hb2 hr2 hr3,
                      ih w rest2 hlen2 le]
                  · rw [simd_step_hi_other w u u2 rest2 le hfast hb1 hb2 (Or.inr hr3),
                      utf16_step_hi_other u u2 rest2 le hb1 hb2 (Or.inr hr3)]
          · rcases Nat.lt_or_ge (getUnit u le) 57344 with hb3 | hb3
            · rw [simd_step_lo w u rest le hfast hb2 hb3,
                utf16_step_lo u rest le hb2 hb3]
            · rw [simd_step_bmp w u rest le hfast (Or.inr hb3),
                utf16_step_bmp u rest le (Or.inr hb3), ih w rest hlen le]

/-- C1: Round-trip of the Serializer capability: for every String (a valid
UTF-8 byte list whose length fits an i32), read applied to the output of
write returns the same string; and for every HashMap whose key and value
types implement Serializer (entrywise round-tripping serializers), read
applied to the output of write returns a map with exactly the original
entries.  In both cases the bytes following the value are untouched. -/
theorem c1_roundtrip {κ ν : Type} [DecidableEq κ] (sk : Ser κ) (sv : Ser ν)
    (s : List Nat) (hs : validUtf8 s = true) (hslen : s.length < 2 ^ 31)
    (l : List (κ × ν)) (hnd : (l.map Prod.fst).Nodup) (hl : l.length < 2 ^ 31)
    (hk : ∀ p ∈ l, ∀ r, sk.read (sk.write p.1 ++ r) = .ok p.1 r)
    (hv : ∀ p ∈ l, ∀ r, sv.read (sv.write p.2 ++ r) = .ok p.2 r)
    (r1 r2 : List Nat) :
    StringSer.read (StringSer.write s ++ r1) = .ok s r1 ∧
    MapSer.read sk sv (MapSer.write sk sv l ++ r2) = .ok l r2 :=
  ⟨string_read_write s hs hslen r1, map_read_write sk sv l hnd hl hk hv r2⟩

/-- Witness for c1_roundtrip: the string "hi" and a one-entry map from the
one-byte string 0x68 to the one-byte string 0x69 both round-trip. -/
theorem c1_roundtrip_witness :
    validUtf8 [104, 105] = true ∧
    StringSer.read (StringSer.write [104, 105] ++ []) = .ok [104, 105] [] ∧
    MapSer.read stringSer stringSer
      (MapSer.write stringSer stringSer [([104], [105])] ++ []) = .ok [([104], [105])] [] := by
  have hk : ∀ p ∈ [(([104] : List Nat), ([105] : List Nat))], ∀ r,
      stringSer.read (stringSer.write p.1 ++ r) = .ok p.1 r := by
    intro p hp r
    simp only [List.mem_singleton] at hp
    subst hp
    exact string_read_write [104] (by decide) (by decide) r
  have hv : ∀ p ∈ [(([104] : List Nat), ([105] : List Nat))], ∀ r,
      stringSer.read (stringSer.write p.2 ++ r) = .ok p.2 r := by
    intro p hp r
    simp only [List.mem_singleton] at hp
    subst hp
    exact string_read_write [105] (by decide) (by decide) r
  exact ⟨by decide,
    c1_roundtrip stringSer stringSer [104, 105] (by decide) (by decide)
      [([104], [105])] (by decide) (by decide) hk hv [] []⟩

/-- C2: at the input bytes [1, 0xFF] (a var-int length of one followed by
the byte 0xFF, which is not valid UTF-8), String read does not return a
typed decoding error: the Ok wrapper at string.rs line 37 is unconditional,
so the invalid payload can only surface as a hard failure of the infallible
cursor primitive, never as a typed error of read. -/
theorem c2_invalid_utf8_hard_failure :
    StringSer.read [1, 255] = .fatal ∧ ∀ e : Error, StringSer.read [1, 255] ≠ .err e := by
  refine ⟨by decide, fun e h => ?_⟩
  rw [show StringSer.read [1, 255] = RRes.fatal by decide] at h
  exact RRes.noConfusion h

/-- C3: decoding from a truncated buffer is a hard failure, not a typed
BufferUnderrun error: String read on [2] (declared length two, no payload)
and HashMap read on [1, 255, 5] (one entry whose key string declares length
five with no payload) both hard-fail, because the cursor primitives return
plain values at their call sites in src/ and cannot produce an error
value. -/
theorem c3_truncation_hard_failure :
    StringSer.read [2] = .fatal ∧
    MapSer.read stringSer stringSer [1, 255, 5] = .fatal ∧
    (∀ e : Error, StringSer.read [2] ≠ .err e) ∧
    (∀ e : Error, MapSer.read stringSer stringSer [1, 255, 5] ≠ .err e) := by
  refine ⟨by decide, by decide, fun e h => ?_, fun e h => ?_⟩
  · rw [show StringSer.read [2] = RRes.fatal by decide] at h
    exact RRes.noConfusion h
  · rw [show MapSer.read stringSer stringSer [1, 255, 5] = RRes.fatal by decide] at h
    exact RRes.noConfusion h

/-- C4: the batched transcoder at width eight (the 8 lanes of the 128-bit
SSE and ARM NEON paths) and at width sixteen (the 16 lanes of the 256-bit
AVX path) produces, for every unit sequence and endianness flag, exactly the
scalar reference output: byte-identical UTF-8 on success and the same error
on malformed input. -/
theorem c4_simd_eq_scalar (units : List Nat) (le : Bool) :
    utf16_to_utf8_simd 8 units le = utf16_to_utf8 units le ∧
    utf16_to_utf8_simd 16 units le = utf16_to_utf8 units le :=
  ⟨utf16_to_utf8_simd_eq units.length 8 units (Nat.le_refl _) le,
   utf16_to_utf8_simd_eq units.length 16 units (Nat.le_refl _) le⟩

/-- C5: two entry lists holding identical key-to-value associations, in
possibly different orders, decode from their own encodings to maps with
identical associations: both reads succeed and every key looks up to the
same value on both results, even though the encoded byte sequences may
differ. -/
theorem c5_map_order_independence {κ ν : Type} [DecidableEq κ] (sk : Ser κ) (sv : Ser ν)
    (l1 l2 : List (κ × ν))
    (hnd1 : (l1.map Prod.fst).Nodup) (hnd2 : (l2.map Prod.fst).Nodup)
    (hassoc : ∀ k, mapLookup l1 k = mapLookup l2 k)
    (hl1 : l1.length < 2 ^ 31) (hl2 : l2.length < 2 ^ 31)
    (hk1 : ∀ p ∈ l1, ∀ r, sk.read (sk.write p.1 ++ r) = .ok p.1 r)
    (hv1 : ∀ p ∈ l1, ∀ r, sv.read (sv.write p.2 ++ r) = .ok p.2 r)
    (hk2 : ∀ p ∈ l2, ∀ r, sk.read (sk.write p.1 ++ r) = .ok p.1 r)
    (hv2 : ∀ p ∈ l2, ∀ r, sv.read (sv.write p.2 ++ r) = .ok p.2 r)
    (r1 r2 : List Nat) :
    ∃ m1 m2 : List (κ × ν),
      MapSer.read sk sv (MapSer.write sk sv l1 ++ r1) = .ok m1 r1 ∧
      MapSer.read sk sv (MapSer.write sk sv l2 ++ r2) = .ok m2 r2 ∧
      ∀ k, mapLookup m1 k = mapLookup m2 k :=
  ⟨l1, l2, map_read_write sk sv l1 hnd1 hl1 hk1 hv1 r1,
    map_read_write sk sv l2 hnd2 hl2 hk2 hv2 r2, hassoc⟩

/-- Witness for c5_map_order_independence: the two-entry string maps with
the same associations inserted in opposite orders decode to maps agreeing on
every key. -/
theorem c5_map_order_independence_witness :
    (∀ k, mapLookup [(([1] : List Nat), ([10] : List Nat)), ([2], [20])] k =
      mapLookup [(([2] : List Nat), ([20] : List Nat)), ([1], [10])] k) ∧
    ∃ m1 m2 : List (List Nat × List Nat),
      MapSer.read stringSer stringSer
        (MapSer.write stringSer stringSer [([1], [10]), ([2], [20])] ++ []) = .ok m1 [] ∧
      MapSer.read stringSer stringSer
        (MapSer.write stringSer stringSer [([2], [20]), ([1], [10])] ++ []) = .ok m2 [] ∧
      ∀ k, mapLookup m1 k = mapLookup m2 k := by
  have hassoc : ∀ k, mapLookup [(([1] : List Nat), ([10] : List Nat)), ([2], [20])] k =
      mapLookup [(([2] : List Nat), ([20] : List Nat)), ([1], [10])] k := by
    intro k
    by_cases h1 : ([1] : List Nat) = k
    · subst h1; decide
    · by_cases h2 : ([2] : List Nat) = k
      · subst h2; decide
      · simp [mapLookup, h1, h2]
  have hside : ∀ p ∈ [(([1] : List Nat), ([10] : List Nat)), ([2], [20])], ∀ r,
      stringSer.read (stringSer.write p.1 ++ r) = .ok p.1 r := by
    intro p hp r
    simp only [List.mem_cons, List.not_mem_nil, or_false] at hp
    rcases hp with hp | hp
    · subst hp
      exact string_read_write [1] (by decide) (by decide) r
    · subst hp
      exact string_read_write [2] (by decide) (by decide) r
  have hsidev : ∀ p ∈ [(([1] : List Nat), ([10] : List Nat)), ([2], [20])], ∀ r,
      stringSer.read (stringSer.write p.2 ++ r) = .ok p.2 r := by
    intro p hp r
    simp only [List.mem_cons, List.not_mem_nil, or_false] at hp
    rcases hp with hp | hp
    · subst hp
      exact string_read_write [10] (by decide) (by decide) r
    · subst hp
      exact string_read_write [20] (by decide) (by decide) r
  have hside2 : ∀ p ∈ [(([2] : List Nat), ([20] : List Nat)), ([1], [10])], ∀ r,
      stringSer.read (stringSer.write p.1 ++ r) = .ok p.1 r := by
    intro p hp r
    simp only [List.mem_cons, List.not_mem_nil, or_false] at hp
    rcases hp with hp | hp
    · subst hp
      exact string_read_write [2] (by decide) (by decide) r
    · subst hp
      exact string_read_write [1] (by decide) (by decide) r
  have hside2v : ∀ p ∈ [(([2] : List Nat), ([20] : List Nat)), ([1], [10])], ∀ r,
      stringSer.read (stringSer.write p.2 ++ r) = .ok p.2 r := by
    intro p hp r
    simp only [List.mem_cons, List.not_mem_nil, or_false] at hp
    rcases hp with hp | hp
    · subst hp
      exact string_read_write [20] (by decide) (by decide) r
    · subst hp
      exact string_read_write [10] (by decide) (by decide) r
  exact ⟨hassoc,
    c5_map_order_independence stringSer stringSer
      [([1], [10]), ([2], [20])] [([2], [20]), ([1], [10])]
      (by decide) (by decide) hassoc (by decide) (by decide)
      hside hsidev hside2 hside2v [] []⟩

/-- C6: HashMap read on a stream carrying an entry count and that many
encoded key-value pairs (duplicates allowed) decodes each key then its value
and inserts the pair into a fresh mapping, so the result is exactly the
insert-fold of the decoded pairs; on duplicate keys the value of the last
occurrence wins in the resulting mapping. -/
theorem c6_read_inserts_last_wins {κ ν : Type} [DecidableEq κ] (sk : Ser κ) (sv : Ser ν)
    (ps : List (κ × ν)) (hlen : ps.length < 2 ^ 31)
    (hk : ∀ p ∈ ps, ∀ r, sk.read (sk.write p.1 ++ r) = .ok p.1 r)
    (hv : ∀ p ∈ ps, ∀ r, sv.read (sv.write p.2 ++ r) = .ok p.2 r)
    (rest : List Nat) :
    MapSer.read sk sv
        (Writer.var_int32 (ps.length : Int) ++ (pairsBytes sk sv ps ++ rest)) =
      .ok (insertAll [] ps) rest ∧
    ∀ k, mapLookup (insertAll [] ps) k =
      (ps.reverse.find? fun p => decide (p.1 = k)).map Prod.snd := by
  constructor
  · unfold MapSer.read
    rw [var_int32_roundtrip (ps.length : Int) (by omega) (by omega)
      (pairsBytes sk sv ps ++ rest)]
    simp only [Int.toNat_ofNat]
    have hm := readPairs_pairsBytes sk sv ps hk hv 0 [] rest
    rw [Nat.add_zero] at hm
    rw [hm]
    simp [readPairs]
  · intro k
    rw [mapLookup_insertAll ps [] k]
    simp [mapLookup]

/-- Witness for c6_read_inserts_last_wins: a stream carrying two entries
with the same key decodes to a one-entry map holding the second value. -/
theorem c6_read_inserts_last_wins_witness :
    MapSer.read stringSer stringSer
        (Writer.var_int32 (([(([7] : List Nat), ([1] : List Nat)), ([7], [2])].length : Nat) : Int) ++
          (pairsBytes stringSer stringSer [([7], [1]), ([7], [2])] ++ [])) =
      .ok (insertAll [] [(([7] : List Nat), ([1] : List Nat)), ([7], [2])]) [] ∧
    ∀ k, mapLookup (insertAll [] [(([7] : List Nat), ([1] : List Nat)), ([7], [2])]) k =
      (([(([7] : List Nat), ([1] : List Nat)), ([7], [2])].reverse).find?
        fun p => decide (p.1 = k)).map Prod.snd := by
  have hk : ∀ p ∈ [(([7] : List Nat), ([1] : List Nat)), ([7], [2])], ∀ r,
      stringSer.read (stringSer.write p.1 ++ r) = .ok p.1 r := by
    intro p hp r
    simp only [List.mem_cons, List.not_mem_nil, or_false] at hp
    rcases hp with hp | hp
    · subst hp
      exact string_read_write [7] (by decide) (by decide) r
    · subst hp
      exact string_read_write [7] (by decide) (by decide) r
  have hv : ∀ p ∈ [(([7] : List Nat), ([1] : List Nat)), ([7], [2])], ∀ r,
      stringSer.read (stringSer.write p.2 ++ r) = .ok p.2 r := by
    intro p hp r
    simp only [List.mem_cons, List.not_mem_nil, or_false] at hp
    rcases hp with hp | hp
    · subst hp
      exact string_read_write [1] (by decide) (by decide) r
    · subst hp
      exact string_read_write [2] (by decide) (by decide) r
  exact c6_read_inserts_last_wins stringSer stringSer
    [([7], [1]), ([7], [2])] (by decide) hk hv []

/-- C7: when decoding a map entry fails with a typed error, HashMap read
returns that first error: with any number of well-formed entries decoded so
far and an entry count announcing more, a key-position failure or a
value-position failure makes the whole read return exactly that error,
whatever bytes follow. -/
theorem c7_first_error_aborts {κ ν : Type} [DecidableEq κ] (sk : Ser κ) (sv : Ser ν)
    (ps : List (κ × ν)) (n : Int)
    (hk : ∀ p ∈ ps, ∀ r, sk.read (sk.write p.1 ++ r) = .ok p.1 r)
    (hv : ∀ p ∈ ps, ∀ r, sv.read (sv.write p.2 ++ r) = .ok p.2 r)
    (hn : (ps.length : Int) < n) (hn2 : n < 2 ^ 31)
    (e : Error) (bad : List Nat) :
    (sk.deserialize bad = .err e →
      MapSer.read sk sv (Writer.var_int32 n ++ (pairsBytes sk sv ps ++ bad)) = .err e) ∧
    ∀ k0 : κ, (∀ r, sk.read (sk.write k0 ++ r) = .ok k0 r) →
      sv.deserialize bad = .err e →
      MapSer.read sk sv
        (Writer.var_int32 n ++ (pairsBytes sk sv ps ++ (sk.serialize k0 ++ bad))) = .err e := by
  have h0 : (0 : Int) ≤ (ps.length : Int) := by omega
  constructor
  · intro hbad
    unfold MapSer.read
    rw [var_int32_roundtrip n (by omega) hn2 (pairsBytes sk sv ps ++ bad)]
    simp only
    obtain ⟨m, hm⟩ : ∃ m, n.toNat = ps.length + (m + 1) := by
      refine ⟨n.toNat - ps.length - 1, ?_⟩
      omega
    rw [hm, readPairs_pairsBytes sk sv ps hk hv (m + 1) [] bad]
    rw [readPairs, hbad]
  · intro k0 hk0 hbadv
    unfold MapSer.read
    rw [var_int32_roundtrip n (by omega) hn2 (pairsBytes sk sv ps ++ (sk.serialize k0 ++ bad))]
    simp only
    obtain ⟨m, hm⟩ : ∃ m, n.toNat = ps.length + (m + 1) := by
      refine ⟨n.toNat - ps.length - 1, ?_⟩
      omega
    rw [hm, readPairs_pairsBytes sk sv ps hk hv (m + 1) [] (sk.serialize k0 ++ bad)]
    rw [readPairs, Ser.deserialize_serialize, hk0 bad]
    simp only [hbadv]

/-- Witness for c7_first_error_aborts: with no well-formed entries, a count
of one, and a buffer starting with a byte that is not the value marker, the
map read returns the typed header error from the key position, and with a
well-formed key in front, from the value position. -/
theorem c7_first_error_aborts_witness :
    (stringSer.deserialize [0] = .err .badRefFlag →
      MapSer.read stringSer stringSer
        (Writer.var_int32 1 ++ (pairsBytes stringSer stringSer [] ++ [0])) =
        .err .badRefFlag) ∧
    (∀ k0 : List Nat, (∀ r, stringSer.read (stringSer.write k0 ++ r) = .ok k0 r) →
      stringSer.deserialize [0] = .err .badRefFlag →
      MapSer.read stringSer stringSer
        (Writer.var_int32 1 ++ (pairsBytes stringSer stringSer [] ++
          (stringSer.serialize k0 ++ [0]))) = .err .badRefFlag) ∧
    stringSer.deserialize [0] = .err .badRefFlag := by
  have h := c7_first_error_aborts stringSer stringSer [] 1
    (by intro p hp r; simp at hp) (by intro p hp r; simp at hp)
    (by decide) (by decide) Error.badRefFlag [0]
  exact ⟨h.1, h.2, by decide⟩

/-- C8: byte-swapping every 16-bit unit and flipping the endianness flag
produce identical UTF-8 output for every unit sequence; in particular the
units [0x0061, 0x0062] under the little-endian flag decode to the bytes of
the string "ab", and the byte-swapped units [0x6100, 0x6200] under the flag
flipped to big-endian decode to the same bytes. -/
theorem c8_endianness :
    (∀ (units : List Nat) (le : Bool),
      utf16_to_utf8 (units.map swap16) (!le) = utf16_to_utf8 units le) ∧
    utf16_to_utf8 [0x0061, 0x0062] true = .ok [0x61, 0x62] ∧
    utf16_to_utf8 [0x6100, 0x6200] false = .ok [0x61, 0x62] :=
  ⟨fun units le => utf16_to_utf8_swap_units units.length units (Nat.le_refl _) le,
   rfl, rfl⟩

/-- C9: the transcoder fails with exactly the missing-surrogate-pair error
on the lone high surrogate [0xD800], and with exactly the
wrong-surrogate-pair error on [0xD800, 0xDA00], a high surrogate followed by
a unit in the surrogate range that is not a valid low surrogate. -/
theorem c9_surrogate_pair_errors :
    utf16_to_utf8 [0xD800] true = .error .missingSurrogatePair ∧
    utf16_to_utf8 [0xD800, 0xDA00] true = .error .wrongSurrogatePair :=
  ⟨rfl, rfl⟩

/-- C10: the entry loop of HashMap read runs for exactly max(count, 0)
iterations: a stream whose var-int count is n followed by max(n, 0) encoded
pairs decodes to exactly those pairs, and when the decoded count is
negative the loop body never runs and read returns Ok with an empty mapping,
whatever bytes follow the count. -/
theorem c10_count_clamped {κ ν : Type} [DecidableEq κ] (sk : Ser κ) (sv : Ser ν)
    (n : Int) (h1 : -2 ^ 31 ≤ n) (h2 : n < 2 ^ 31)
    (ps : List (κ × ν)) (hlen : (ps.length : Int) = max n 0)
    (hk : ∀ p ∈ ps, ∀ r, sk.read (sk.write p.1 ++ r) = .ok p.1 r)
    (hv : ∀ p ∈ ps, ∀ r, sv.read (sv.write p.2 ++ r) = .ok p.2 r)
    (rest : List Nat) :
    MapSer.read sk sv (Writer.var_int32 n ++ (pairsBytes sk sv ps ++ rest)) =
      .ok (insertAll [] ps) rest ∧
    (n < 0 → ∀ junk, MapSer.read sk sv (Writer.var_int32 n ++ junk) = .ok [] junk) := by
  constructor
  · unfold MapSer.read
    rw [var_int32_roundtrip n h1 h2 (pairsBytes sk sv ps ++ rest)]
    simp only
    have hnt : n.toNat = ps.length := by omega
    have hm := readPairs_pairsBytes sk sv ps hk hv 0 [] rest
    rw [Nat.add_zero] at hm
    rw [hnt, hm]
    simp [readPairs]
  · intro hneg junk
    unfold MapSer.read
    rw [var_int32_roundtrip n h1 h2 junk]
    simp only
    have hz : n.toNat = 0 := by omega
    rw [hz]
    simp [readPairs]

/-- Witness for c10_count_clamped: with the count negative one and no pairs,
the read returns Ok with the empty map and consumes only the count. -/
theorem c10_count_clamped_witness :
    ((([] : List (List Nat × List Nat)).length : Int) = max (-1) 0 ∧
      MapSer.read stringSer stringSer
        (Writer.var_int32 (-1) ++ (pairsBytes stringSer stringSer [] ++ [9, 9])) =
        .ok (insertAll [] ([] : List (List Nat × List Nat))) [9, 9]) ∧
    ((-1 : Int) < 0 → ∀ junk,
      MapSer.read stringSer stringSer (Writer.var_int32 (-1) ++ junk) = .ok [] junk) := by
  have h := c10_count_clamped stringSer stringSer (-1) (by decide) (by decide)
    ([] : List (List Nat × List Nat)) (by decide)
    (by intro p hp r; simp at hp) (by intro p hp r; simp at hp) [9, 9]
  exact ⟨⟨by decide, h.1⟩, h.2⟩
